import Mathlib

/-!
Verification of the jsonstore library (package jsonstore, file jsonstore.go).

The store is an in-memory map from string keys to opaque encoded payloads
(Go: map[string]*json.RawMessage), with mutation counters (setCount,
savedCount, diffCount), snapshot copying, file persistence (plain or gzip,
chosen by the ".gz" filename suffix), and an autosave loop.

Modelling choices, each justified by the source:
* The Go map is modelled as an association list; since Go maps distinguish
  the nil map (the zero value; reads are fine, writes panic without the
  lazy-init in Set) from an empty map, the data field is
  Option (List (String x payload)), with none standing for the nil map.
* json.Marshal / json.Unmarshal and the whole-map encoder/decoder of
  encoding/json, and compress/gzip, are standard-library collaborators,
  not code of this repository; they are modelled as parameters bundled
  with exactly the contracts the code relies on (a decode inverts an
  encode).  All store logic is translated from jsonstore.go itself.
* int64 counters are modelled as unbounded Int (the code never relies on
  wrap-around).
* The capacity-1 save channel of StartAutoSave is modelled by the Boolean
  savePending: a non-blocking send into a full channel is dropped, so the
  channel's observable state is occupied-or-not.
* Locks serialise the operations; in this sequential model each operation
  is one atomic step.
-/

namespace Jsonstore

/-- Errors surfaced by the library: NoSuchKeyError{key} from Get, an
encode error from json.Marshal inside Set, a decode error from
json.Unmarshal / json.Decoder, a gzip-stream error from gzip.NewReader,
and filesystem errors from os.Open / os.Create / write / os.Rename. -/
inductive GoError where
  | noSuchKey (key : String)
  | encodeError
  | decodeError
  | gzipError
  | ioError
deriving DecidableEq

/-- The per-value codec collaborator (json.Marshal / json.Unmarshal).
encode returns none exactly when the value is not encodable (json.Marshal
errors).  The contract decode_encode is the round-trip guarantee of the
self-describing format (spec section 4.3): decoding a successfully encoded
payload into a destination of the value's type reproduces the value. -/
structure Codec (V B : Type) where
  encode : V → Option B
  decode : B → Option V
  decode_encode : ∀ v b, encode v = some b → decode b = some v

/-- Association-list lookup, mirroring Go map indexing m[k]. -/
def lookupA {B : Type} (k : String) : List (String × B) → Option B
  | [] => none
  | (k', b) :: rest => if k' = k then some b else lookupA k rest

/-- Association-list update, mirroring Go map assignment m[k] = b
(replaces the binding when the key is present, otherwise adds it). -/
def setA {B : Type} (k : String) (b : B) : List (String × B) → List (String × B)
  | [] => [(k, b)]
  | (k', b') :: rest => if k' = k then (k, b) :: rest else (k', b') :: setA k b rest

/-- Association-list removal, mirroring Go delete(m, k). -/
def eraseA {B : Type} (k : String) : List (String × B) → List (String × B)
  | [] => []
  | (k', b') :: rest => if k' = k then eraseA k rest else (k', b') :: eraseA k rest

/-- The JSONStore struct.  data none models the nil Go map (the zero
value).  diffCount, setCount, savedCount are the int64 counters.
savePending models whether the capacity-1 save channel holds a signal. -/
structure JSONStore (B : Type) where
  data : Option (List (String × B))
  diffCount : Int
  setCount : Int
  savedCount : Int
  savePending : Bool
deriving DecidableEq

/-- The map behind the data field as Go reads see it: indexing, range and
len on a nil map behave like on an empty map. -/
def JSONStore.dataD {B : Type} (s : JSONStore B) : List (String × B) :=
  s.data.getD []

/-- The zero value of JSONStore: nil map, zero counters, nil channels. -/
def zeroStore (B : Type) : JSONStore B :=
  { data := none, diffCount := 0, setCount := 0, savedCount := 0, savePending := false }

/-- Set: marshal the value (returning the marshal error on failure, with
the store untouched); lazily initialise the nil map; store the payload at
the key; increment setCount; when diffCount is non-zero and
setCount - savedCount has reached diffCount, do a non-blocking send on the
save channel (a send into the already-full channel is dropped).  Returns
(error, updated store), mirroring the Go method's receiver mutation. -/
def JSONStore.Set {V B : Type} (c : Codec V B) (s : JSONStore B) (key : String)
    (value : V) : Option GoError × JSONStore B :=
  match c.encode value with
  | none => (some GoError.encodeError, s)
  | some b =>
    let m := s.dataD
    let newSetCount := s.setCount + 1
    let pend := s.savePending ||
      (decide (s.diffCount ≠ 0) && decide (newSetCount - s.savedCount ≥ s.diffCount))
    (none, { data := some (setA key b m), diffCount := s.diffCount,
             setCount := newSetCount, savedCount := s.savedCount,
             savePending := pend })

/-- Get: look the key up (NoSuchKeyError when absent) and unmarshal the
stored payload into the destination. -/
def JSONStore.Get {V B : Type} (c : Codec V B) (s : JSONStore B) (key : String) :
    Except GoError V :=
  match lookupA key s.dataD with
  | none => Except.error (GoError.noSuchKey key)
  | some b =>
    match c.decode b with
    | none => Except.error GoError.decodeError
    | some v => Except.ok v

/-- Delete: delete(s.data, key); on a nil map this is a no-op. -/
def JSONStore.Delete {B : Type} (s : JSONStore B) (key : String) : JSONStore B :=
  { s with data := s.data.map (eraseA key) }

/-- Size: len(s.data). -/
def JSONStore.Size {B : Type} (s : JSONStore B) : Nat :=
  s.dataD.length

/-- Keys: the list of keys currently in the map. -/
def JSONStore.Keys {B : Type} (s : JSONStore B) : List String :=
  s.dataD.map Prod.fst

/-- snapshot(skipIfSaved): under the read lock, return nil when
skipIfSaved holds and setCount == savedCount; otherwise copy every
(key, payload) pair into a fresh map and return a new store carrying the
source's setCount (all other fields zero-valued, as in the Go composite
literal). -/
def JSONStore.snapshot {B : Type} (s : JSONStore B) (skipIfSaved : Bool) :
    Option (JSONStore B) :=
  if skipIfSaved = true ∧ s.setCount = s.savedCount then none
  else some { data := some s.dataD, diffCount := 0, setCount := s.setCount,
              savedCount := 0, savePending := false }

/-- One iteration of the StartAutoSave loop body after a wake-up, reduced
to its effect on the store: take snapshot(true); when nothing was produced
continue; otherwise (after writing the snapshot to disk, which does not
touch the store) set savedCount to the snapshot's setCount. -/
def JSONStore.autosaveStep {B : Type} (s : JSONStore B) : JSONStore B :=
  match s.snapshot true with
  | none => s
  | some snap => { s with savedCount := snap.setCount }

/-- The in-memory effect of StartAutoSave: record the threshold in
diffCount and install fresh (empty) channels. -/
def JSONStore.StartAutoSave {B : Type} (s : JSONStore B) (count : Int) : JSONStore B :=
  { s with diffCount := count, savePending := false }

/-- Two snapshot(true) calls in a row with nothing in between: snapshot
only reads the receiver (it copies under the read lock), so the second
call observes the same state as the first. -/
def snapshotTwice {B : Type} (s : JSONStore B) :
    Option (JSONStore B) × Option (JSONStore B) :=
  (s.snapshot true, s.snapshot true)

/-- The identity codec on Nat: a valid instance of the codec contract,
used to instantiate parametric theorems at concrete inputs. -/
def natCodec : Codec Nat Nat where
  encode := fun v => some v
  decode := fun b => some b
  decode_encode := fun v b h => by
    cases h
    rfl

/-- A codec on Int whose encode rejects negative values: a contract
instance whose encode is genuinely partial. -/
def intCodec : Codec Int Int where
  encode := fun v => if 0 ≤ v then some v else none
  decode := fun b => some b
  decode_encode := fun v b h => by
    by_cases hv : 0 ≤ v
    · simp [hv] at h
      simp [h]
    · simp [hv] at h

theorem lookupA_setA_self {B : Type} (k : String) (b : B) (m : List (String × B)) :
    lookupA k (setA k b m) = some b := by
  induction m with
  | nil => simp [setA, lookupA]
  | cons p rest ih =>
    by_cases h : p.1 = k
    · simp [setA, h, lookupA]
    · simp [setA, h, lookupA, ih]

theorem lookupA_setA_other {B : Type} (k k' : String) (b : B) (m : List (String × B))
    (hne : k ≠ k') : lookupA k' (setA k b m) = lookupA k' m := by
  induction m with
  | nil => simp [setA, lookupA, hne]
  | cons p rest ih =>
    by_cases h : p.1 = k
    · simp [setA, h, lookupA, hne]
    · simp only [setA, h, if_false, lookupA]
      by_cases h2 : p.1 = k'
      · simp [h2]
      · simp [h2, ih]

theorem lookupA_isSome_iff_mem {B : Type} (k : String) (m : List (String × B)) :
    (lookupA k m).isSome = true ↔ k ∈ m.map Prod.fst := by
  induction m with
  | nil => simp [lookupA]
  | cons p rest ih =>
    by_cases h : p.1 = k
    · simp [lookupA, h]
    · simp only [lookupA, h, if_false, List.map_cons, List.mem_cons]
      rw [ih]
      constructor
      · intro hm
        exact Or.inr hm
      · intro hm
        cases hm with
        | inl heq => exact absurd heq.symm h
        | inr hm => exact hm

/-- A concrete dirty store: one key, setCount 1, savedCount 0. -/
def dirtyStore : JSONStore Nat :=
  { data := some [("a", 7)], diffCount := 0, setCount := 1, savedCount := 0,
    savePending := false }

/-- The copy that snapshot produces from dirtyStore. -/
def dirtySnap : JSONStore Nat :=
  { data := some [("a", 7)], diffCount := 0, setCount := 1, savedCount := 0,
    savePending := false }

/-- C1: for every key k and every value v encodable by the codec, Set(k, v)
followed by Get(k, dest) succeeds and decodes into dest a value structurally
equal to v. -/
theorem set_then_get {V B : Type} (c : Codec V B) (s : JSONStore B) (k : String)
    (v : V) (b : B) (henc : c.encode v = some b) :
    (JSONStore.Set c s k v).2.Get c k = Except.ok v := by
  unfold JSONStore.Set JSONStore.Get
  simp only [henc, JSONStore.dataD, Option.getD_some, lookupA_setA_self,
    c.decode_encode v b henc]

theorem set_then_get_witness :
    (JSONStore.Set natCodec (zeroStore Nat) "x" 3).2.Get natCodec "x" = Except.ok 3 :=
  set_then_get natCodec (zeroStore Nat) "x" 3 3 rfl

/-- C2: snapshot with skipIfUnchanged=true returns no snapshot exactly when
setCount == savedCount; otherwise (and always when skipIfUnchanged=false) it
returns a new store whose mapping equals the source's current mapping and
whose setCount tag equals the source's setCount. -/
theorem snapshot_spec {B : Type} (s : JSONStore B) (skip : Bool) :
    (s.snapshot skip = none ↔ (skip = true ∧ s.setCount = s.savedCount))
    ∧ (∀ t, s.snapshot skip = some t →
        t.data = some s.dataD ∧ t.setCount = s.setCount) := by
  unfold JSONStore.snapshot
  by_cases h : skip = true ∧ s.setCount = s.savedCount
  · simp [h]
  · simp only [h, if_false]
    constructor
    · simp [h]
    · intro t ht
      cases ht
      exact ⟨rfl, rfl⟩

theorem snapshot_spec_witness :
    dirtySnap.data = some dirtyStore.dataD ∧ dirtySnap.setCount = dirtyStore.setCount :=
  (snapshot_spec dirtyStore true).2 dirtySnap (by decide)

/-- C6 as stated is false: snapshot only reads the receiver and never
advances savedCount, so on a dirty store (setCount 1, savedCount 0) two
snapshot(true) calls in a row, with no intervening Set, both return a
snapshot — the second call does not return "no snapshot". -/
theorem snapshot_twice_counterexample :
    (snapshotTwice dirtyStore).1 ≠ none ∧ (snapshotTwice dirtyStore).2 ≠ none := by
  decide

/-- C6 amended: the bare snapshot operation does not mutate its receiver, so
the second of two snapshot(true) calls returns exactly what the first did
(no snapshot only when the store was already clean); it is only after a full
autosave cycle — snapshot(true) followed by the loop's
savedCount := snapshot.setCount update — that a subsequent snapshot(true)
with no intervening Set returns no snapshot. -/
theorem snapshot_twice_amended {B : Type} (s : JSONStore B) :
    s.autosaveStep.snapshot true = none
    ∧ (snapshotTwice s).2 = (snapshotTwice s).1 := by
  refine ⟨?_, rfl⟩
  unfold JSONStore.autosaveStep
  by_cases h : s.setCount = s.savedCount
  · simp [JSONStore.snapshot, h]
  · simp [JSONStore.snapshot, h]

/-- C7: Set fails with an encode error exactly when the value is not
encodable; on failure the store is returned unchanged; on success the
payload replaces any existing value at the key and setCount goes up by
one. -/
theorem set_error_spec {V B : Type} (c : Codec V B) (s : JSONStore B)
    (k : String) (v : V) :
    (c.encode v = none → JSONStore.Set c s k v = (some GoError.encodeError, s))
    ∧ (∀ b, c.encode v = some b →
        (JSONStore.Set c s k v).1 = none
        ∧ lookupA k (JSONStore.Set c s k v).2.dataD = some b
        ∧ (∀ k', k ≠ k' →
            lookupA k' (JSONStore.Set c s k v).2.dataD = lookupA k' s.dataD)
        ∧ (JSONStore.Set c s k v).2.setCount = s.setCount + 1) := by
  constructor
  · intro hn
    simp [JSONStore.Set, hn]
  · intro b hb
    refine ⟨?_, ?_, ?_, ?_⟩
    · simp [JSONStore.Set, hb]
    · simp only [JSONStore.Set, hb, JSONStore.dataD, Option.getD_some]
      exact lookupA_setA_self k b _
    · intro k' hne
      simp only [JSONStore.Set, hb, JSONStore.dataD, Option.getD_some]
      exact lookupA_setA_other k k' b _ hne
    · simp [JSONStore.Set, hb]

theorem set_error_spec_witness :
    (JSONStore.Set intCodec (zeroStore Int) "a" (-1)
      = (some GoError.encodeError, zeroStore Int))
    ∧ ((JSONStore.Set intCodec (zeroStore Int) "a" 5).1 = none
       ∧ lookupA "a" (JSONStore.Set intCodec (zeroStore Int) "a" 5).2.dataD = some 5
       ∧ (JSONStore.Set intCodec (zeroStore Int) "a" 5).2.setCount
          = (zeroStore Int).setCount + 1) :=
  ⟨(set_error_spec intCodec (zeroStore Int) "a" (-1)).1 (by decide),
   (set_error_spec intCodec (zeroStore Int) "a" 5).2 5 (by decide) |>.1,
   (set_error_spec intCodec (zeroStore Int) "a" 5).2 5 (by decide) |>.2.1,
   (set_error_spec intCodec (zeroStore Int) "a" 5).2 5 (by decide) |>.2.2.2⟩

/-- C8 as stated is false: Delete of a present key does not increment
setCount.  On the dirty store holding key "a" with setCount 1, Delete("a")
removes the key but leaves setCount at 1, not 2. -/
theorem delete_counts_counterexample :
    ("a" ∈ dirtyStore.Keys)
    ∧ ¬ ((dirtyStore.Delete "a").setCount = dirtyStore.setCount + 1) := by
  decide

/-- C8 amended: setCount counts successful Set calls only — each successful
Set increments it by exactly one, a failed Set leaves it unchanged, and
Delete (even of a present key) never changes setCount. -/
theorem set_count_amended {V B : Type} (c : Codec V B) (s : JSONStore B)
    (k kd : String) (v : V) :
    (∀ b, c.encode v = some b →
        (JSONStore.Set c s k v).2.setCount = s.setCount + 1)
    ∧ (c.encode v = none → (JSONStore.Set c s k v).2.setCount = s.setCount)
    ∧ (s.Delete kd).setCount = s.setCount := by
  refine ⟨?_, ?_, rfl⟩
  · intro b hb
    simp [JSONStore.Set, hb]
  · intro hn
    simp [JSONStore.Set, hn]

theorem set_count_amended_witness :
    ((JSONStore.Set natCodec (zeroStore Nat) "k" 9).2.setCount
      = (zeroStore Nat).setCount + 1)
    ∧ ((zeroStore Nat).Delete "k").setCount = (zeroStore Nat).setCount :=
  ⟨(set_count_amended natCodec (zeroStore Nat) "k" "k" 9).1 9 rfl,
   (set_count_amended natCodec (zeroStore Nat) "k" "k" 9).2.2⟩

/-- C10: every operation is safe on the zero-value store whose map was
never initialised: Get returns NoSuchKeyError, Size is 0, Keys is empty,
Delete is a no-op, and the first successful Set lazily initialises the map
to exactly the one new binding. -/
theorem zero_value_safe {V B : Type} (c : Codec V B) (k : String) (v : V) :
    (zeroStore B).Get c k = Except.error (GoError.noSuchKey k)
    ∧ (zeroStore B).Size = 0
    ∧ (zeroStore B).Keys = []
    ∧ (zeroStore B).Delete k = zeroStore B
    ∧ (∀ b, c.encode v = some b →
        ((zeroStore B).Set c k v).2.data = some [(k, b)]) := by
  refine ⟨rfl, rfl, rfl, rfl, ?_⟩
  intro b hb
  simp [JSONStore.Set, hb, zeroStore, JSONStore.dataD, setA]

theorem zero_value_safe_witness :
    (zeroStore Nat).Get natCodec "x" = Except.error (GoError.noSuchKey "x")
    ∧ (zeroStore Nat).Size = 0
    ∧ ((zeroStore Nat).Set natCodec "x" 3).2.data = some [("x", 3)] :=
  ⟨(zero_value_safe natCodec "x" 3).1,
   (zero_value_safe natCodec "x" 3).2.1,
   (zero_value_safe natCodec "x" 3).2.2.2.2 3 rfl⟩

/-- One store-level operation, as listed in the invariant claim: a Set
call (successful or failed), a Delete, a snapshot (which only reads the
source store), or the autosave loop's savedCount update. -/
inductive JStep {V B : Type} (c : Codec V B) : JSONStore B → JSONStore B → Prop where
  | set (s : JSONStore B) (k : String) (v : V) : JStep c s (JSONStore.Set c s k v).2
  | del (s : JSONStore B) (k : String) : JStep c s (s.Delete k)
  | snap (s : JSONStore B) (skip : Bool) : JStep c s s
  | autosave (s : JSONStore B) : JStep c s s.autosaveStep

theorem jstep_counters {V B : Type} (c : Codec V B) {s s' : JSONStore B}
    (hinv : s.savedCount ≤ s.setCount) (h : JStep c s s') :
    s'.savedCount ≤ s'.setCount ∧ s.setCount ≤ s'.setCount
      ∧ s.savedCount ≤ s'.savedCount := by
  cases h with
  | set k v =>
    cases hc : c.encode v with
    | none => refine ⟨?_, ?_, ?_⟩ <;> simp [JSONStore.Set, hc] <;> omega
    | some b => refine ⟨?_, ?_, ?_⟩ <;> simp [JSONStore.Set, hc] <;> omega
  | del k =>
    exact ⟨hinv, le_refl _, le_refl _⟩
  | snap skip =>
    exact ⟨hinv, le_refl _, le_refl _⟩
  | autosave =>
    refine ⟨?_, ?_, ?_⟩ <;>
      unfold JSONStore.autosaveStep JSONStore.snapshot <;>
      by_cases hc : s.setCount = s.savedCount <;>
      simp [hc] <;> omega

/-- C3: from any state satisfying savedCount <= setCount (in particular the
zero store and any freshly opened store, whose counters are both zero),
every state reachable by Set, Delete, snapshot and autosave steps satisfies
savedCount <= setCount, and along every such step both counters are
non-decreasing. -/
theorem counters_invariant {V B : Type} (c : Codec V B) :
    (∀ s0 s : JSONStore B, s0.savedCount ≤ s0.setCount →
        Relation.ReflTransGen (JStep c) s0 s → s.savedCount ≤ s.setCount)
    ∧ (∀ s s' : JSONStore B, s.savedCount ≤ s.setCount → JStep c s s' →
        s.setCount ≤ s'.setCount ∧ s.savedCount ≤ s'.savedCount) := by
  constructor
  · intro s0 s h0 hreach
    induction hreach with
    | refl => exact h0
    | tail hr hstep ih => exact (jstep_counters c ih hstep).1
  · intro s s' hinv hstep
    exact (jstep_counters c hinv hstep).2

theorem counters_invariant_witness :
    ((zeroStore Nat).savedCount ≤ (zeroStore Nat).setCount)
    ∧ (dirtyStore.setCount ≤ dirtyStore.autosaveStep.setCount
       ∧ dirtyStore.savedCount ≤ dirtyStore.autosaveStep.savedCount) :=
  ⟨(counters_invariant natCodec).1 (zeroStore Nat) (zeroStore Nat) (by decide)
     Relation.ReflTransGen.refl,
   (counters_invariant natCodec).2 dirtyStore dirtyStore.autosaveStep (by decide)
     (JStep.autosave dirtyStore)⟩

/-- strings.HasSuffix, via the character lists of the two strings. -/
def hasSuffix (suffix s : String) : Bool :=
  suffix.data.isSuffixOf s.data

/-- Contents of one file: partialData models a file that was created (or
truncated by os.Create) whose write did not complete, fullData a file whose
whole content was written.  A partially written file never decodes. -/
inductive FileData (F : Type) where
  | partialData
  | fullData (f : F)
deriving DecidableEq

/-- The filesystem: a mapping from filename to file contents. -/
def FileSys (F : Type) := List (String × FileData F)

/-- Failure oracle for the filesystem collaborator: which os.Create,
stream-write and os.Rename calls fail.  Quantifying over all oracles covers
every combination of I/O failures. -/
structure FsOracle where
  createFails : String → Bool
  writeFails : String → Bool
  renameFails : String → Bool

/-- os.Create: on failure the filesystem is untouched; on success the file
exists truncated (partial until a complete write lands). -/
def createFile {F : Type} (orc : FsOracle) (fs : FileSys F) (name : String) :
    Option GoError × FileSys F :=
  if orc.createFails name then (some GoError.ioError, fs)
  else (none, setA name FileData.partialData fs)

/-- os.Rename: moves the source file onto the destination, atomically
replacing it; fails (leaving the filesystem unchanged) when the source is
missing or the oracle makes the rename fail. -/
def renameFile {F : Type} (orc : FsOracle) (src dst : String) (fs : FileSys F) :
    Option GoError × FileSys F :=
  match lookupA src fs with
  | none => (some GoError.ioError, fs)
  | some d =>
    if orc.renameFails src then (some GoError.ioError, fs)
    else (none, setA dst d (eraseA src fs))

/-- os.Remove with the error ignored, as in the deferred call of
saveAndRename. -/
def removeFile {F : Type} (name : String) (fs : FileSys F) : FileSys F :=
  eraseA name fs

/-- The whole-map codec collaborator (json.NewEncoder / json.NewDecoder on
a map[string]*json.RawMessage).  The contract: decoding an encoded map
succeeds and reproduces a map giving every key the same payload (a JSON
object keeps its key/value bindings; the iteration order of a Go map is
irrelevant). -/
structure MapCodec (B F : Type) where
  encodeMap : List (String × B) → F
  decodeMap : F → Option (List (String × B))
  decode_encode : ∀ m, ∃ m', decodeMap (encodeMap m) = some m'
      ∧ ∀ k, lookupA k m' = lookupA k m

/-- The gzip collaborator: a symmetric streaming compressor pair. -/
structure Gz (F : Type) where
  compress : F → F
  decompress : F → Option F
  decompress_compress : ∀ f, decompress (compress f) = some f

/-- saveToWriter: take a fresh snapshot when asked (snapshot(false) always
produces one; the getD branch is never taken) and encode its whole map. -/
def JSONStore.saveToWriter {B F : Type} (mc : MapCodec B F) (s : JSONStore B)
    (takeSnapshot : Bool) : F :=
  let snap := if takeSnapshot then (s.snapshot false).getD s else s
  mc.encodeMap snap.dataD

/-- The bytes save writes for a given filename: the encoded map, passed
through the gzip writer exactly when the filename ends in ".gz". -/
def fileContent {B F : Type} (mc : MapCodec B F) (gz : Gz F) (filename : String)
    (ks : JSONStore B) (takeSnapshot : Bool) : F :=
  let payload := ks.saveToWriter mc takeSnapshot
  if hasSuffix ".gz" filename then gz.compress payload else payload

/-- save: os.Create the file, then encode the map into the writer stack.
On a plain filename the json.Encoder writes directly into the file, so a
failure of those writes is the error save returns (with the file left
partial).  On a ".gz" filename the encoder writes into the gzip writer's
in-memory buffer and the bytes only reach the file when the deferred
w.Close() flushes them — and the source discards the errors of the
deferred w.Close() and f.Close(): a failed flush leaves the file partially
written while save still returns nil. -/
def save {B F : Type} (orc : FsOracle) (mc : MapCodec B F) (gz : Gz F)
    (fs : FileSys F) (ks : JSONStore B) (filename : String) (takeSnapshot : Bool) :
    Option GoError × FileSys F :=
  match createFile orc fs filename with
  | (some e, fs1) => (some e, fs1)
  | (none, fs1) =>
    let content := fileContent mc gz filename ks takeSnapshot
    if hasSuffix ".gz" filename then
      if orc.writeFails filename then (none, fs1)
      else (none, setA filename (FileData.fullData content) fs1)
    else
      if orc.writeFails filename then (some GoError.ioError, fs1)
      else (none, setA filename (FileData.fullData content) fs1)

/-- Save: the public entry point, always snapshotting. -/
def Save {B F : Type} (orc : FsOracle) (mc : MapCodec B F) (gz : Gz F)
    (fs : FileSys F) (ks : JSONStore B) (filename : String) :
    Option GoError × FileSys F :=
  save orc mc gz fs ks filename true

/-- The temporary filename of saveAndRename: fmt.Sprintf("%s.tmp-%d",
filename, now), with ".gz" appended when the destination carries the
compressed suffix. -/
def tmpName (filename : String) (now : Nat) : String :=
  let t := filename ++ ".tmp-" ++ toString now
  if hasSuffix ".gz" filename then t ++ ".gz" else t

/-- saveAndRename: save to the temporary file; on failure return the error;
otherwise rename the temporary file onto the destination; in all cases the
deferred os.Remove deletes whatever is left at the temporary name. -/
def saveAndRename {B F : Type} (orc : FsOracle) (mc : MapCodec B F) (gz : Gz F)
    (fs : FileSys F) (ks : JSONStore B) (filename : String) (now : Nat)
    (takeSnapshot : Bool) : Option GoError × FileSys F :=
  let tmpfile := tmpName filename now
  match save orc mc gz fs ks tmpfile takeSnapshot with
  | (some e, fs1) => (some e, removeFile tmpfile fs1)
  | (none, fs1) =>
    match renameFile orc tmpfile filename fs1 with
    | (e2, fs2) => (e2, removeFile tmpfile fs2)

/-- SaveAndRename: the public entry point, always snapshotting. -/
def SaveAndRename {B F : Type} (orc : FsOracle) (mc : MapCodec B F) (gz : Gz F)
    (fs : FileSys F) (ks : JSONStore B) (filename : String) (now : Nat) :
    Option GoError × FileSys F :=
  saveAndRename orc mc gz fs ks filename now true

/-- Open: read the file (an I/O error when absent, a decode error when only
partially written), unwrap gzip when the filename ends in ".gz", decode the
top-level map, and return a fresh store holding it with zero counters. -/
def Open {B F : Type} (mc : MapCodec B F) (gz : Gz F) (fs : FileSys F)
    (filename : String) : Except GoError (JSONStore B) :=
  match lookupA filename fs with
  | none => Except.error GoError.ioError
  | some FileData.partialData => Except.error GoError.decodeError
  | some (FileData.fullData content) =>
    match if hasSuffix ".gz" filename then gz.decompress content else some content with
    | none => Except.error GoError.gzipError
    | some p =>
      match mc.decodeMap p with
      | none => Except.error GoError.decodeError
      | some m =>
        Except.ok { data := some m, diffCount := 0, setCount := 0,
                    savedCount := 0, savePending := false }

theorem lookupA_eraseA_self {B : Type} (k : String) (m : List (String × B)) :
    lookupA k (eraseA k m) = none := by
  induction m with
  | nil => rfl
  | cons p rest ih =>
    by_cases h : p.1 = k
    · simp [eraseA, h, ih]
    · simp [eraseA, h, lookupA, ih]

theorem lookupA_eraseA_other {B : Type} (k k' : String) (m : List (String × B))
    (hne : k ≠ k') : lookupA k' (eraseA k m) = lookupA k' m := by
  have hks : k' ≠ k := Ne.symm hne
  induction m with
  | nil => rfl
  | cons p rest ih =>
    by_cases h : p.1 = k
    · simp [eraseA, h, lookupA, hne, ih]
    · by_cases h2 : p.1 = k'
      · simp [eraseA, h, lookupA, h2, hks]
      · simp [eraseA, h, lookupA, h2, ih]

theorem tmpName_ne (filename : String) (now : Nat) :
    tmpName filename now ≠ filename := by
  have h5 : (".tmp-" : String).length = 5 := rfl
  have h3 : (".gz" : String).length = 3 := rfl
  unfold tmpName
  by_cases hg : hasSuffix ".gz" filename
  · simp only [hg, if_true]
    intro h
    have := congrArg String.length h
    simp [String.length_append, h5, h3] at this
    omega
  · simp only [hg, if_false]
    intro h
    have := congrArg String.length h
    simp [String.length_append, h5] at this
    omega

theorem toDigitsCore_getLast?_ne_nil (b : Nat) (fuel : Nat) :
    ∀ (n : Nat) (ds : List Char), ds ≠ [] →
      (Nat.toDigitsCore b fuel n ds).getLast? = ds.getLast? := by
  induction fuel with
  | zero =>
    intro n ds h
    rfl
  | succ f ih =>
    intro n ds h
    unfold Nat.toDigitsCore
    obtain ⟨x, xs, rfl⟩ := List.exists_cons_of_ne_nil h
    by_cases h0 : n / b = 0
    · simp only [h0, if_true]
      rw [show (Nat.digitChar (n % b) :: x :: xs)
            = [Nat.digitChar (n % b)] ++ (x :: xs) from rfl]
      rw [List.getLast?_append]
      cases hgl : (x :: xs).getLast? with
      | none => simp at hgl
      | some y => rfl
    · simp only [h0, if_false]
      rw [ih (n / b) _ (by simp)]
      rw [show (Nat.digitChar (n % b) :: x :: xs)
            = [Nat.digitChar (n % b)] ++ (x :: xs) from rfl]
      rw [List.getLast?_append]
      cases hgl : (x :: xs).getLast? with
      | none => simp at hgl
      | some y => rfl

theorem toDigits_getLast? (n : Nat) :
    (Nat.toDigits 10 n).getLast? = some (Nat.digitChar (n % 10)) := by
  unfold Nat.toDigits
  unfold Nat.toDigitsCore
  by_cases h0 : n / 10 = 0
  · simp [h0]
  · simp only [h0, if_false]
    rw [toDigitsCore_getLast?_ne_nil 10 n (n / 10) [Nat.digitChar (n % 10)] (by simp)]
    rfl

theorem digitChar_ne_z (m : Nat) (h : m < 10) : Nat.digitChar m ≠ 'z' := by
  interval_cases m <;> decide

theorem toString_nat_data_getLast? (n : Nat) :
    (toString n : String).data.getLast? = some (Nat.digitChar (n % 10)) :=
  toDigits_getLast? n

/-- The temporary filename carries the ".gz" suffix exactly when the
destination does: tmpName appends ".gz" in that case, and otherwise ends
with the decimal timestamp, whose last character is a digit. -/
theorem hasSuffix_gz_tmpName (filename : String) (now : Nat) :
    hasSuffix ".gz" (tmpName filename now) = hasSuffix ".gz" filename := by
  unfold tmpName
  by_cases hg : hasSuffix ".gz" filename = true
  · simp only [hg, if_true]
    unfold hasSuffix
    rw [List.isSuffixOf_iff_suffix, String.data_append]
    exact List.suffix_append _ _
  · rw [Bool.not_eq_true] at hg
    simp only [hg, Bool.false_eq_true, if_false]
    apply Bool.eq_false_iff.mpr
    intro hcon
    unfold hasSuffix at hcon
    rw [List.isSuffixOf_iff_suffix] at hcon
    obtain ⟨t, ht⟩ := hcon
    have h1 : (t ++ (".gz" : String).data).getLast? = some 'z' := by
      rw [List.getLast?_append]
      rfl
    have h2 : (filename ++ ".tmp-" ++ toString now).data.getLast?
        = some (Nat.digitChar (now % 10)) := by
      rw [String.data_append, List.getLast?_append, toString_nat_data_getLast?]
      rfl
    rw [ht, h2] at h1
    have hz : Nat.digitChar (now % 10) = 'z' := Option.some.inj h1
    exact digitChar_ne_z (now % 10) (Nat.mod_lt now (by norm_num)) hz

/-- Identity whole-map codec: the file payload type is the map itself, a
valid instance of the whole-map codec contract. -/
def listMapCodec (B : Type) : MapCodec B (List (String × B)) where
  encodeMap := fun m => m
  decodeMap := fun f => some f
  decode_encode := fun m => ⟨m, rfl, fun _ => rfl⟩

/-- Identity compressor: a valid instance of the gzip contract. -/
def idGz (F : Type) : Gz F where
  compress := fun f => f
  decompress := fun f => some f
  decompress_compress := fun _ => rfl

/-- An oracle on which every I/O operation succeeds. -/
def okOracle : FsOracle where
  createFails := fun _ => false
  writeFails := fun _ => false
  renameFails := fun _ => false

/-- An oracle on which every stream write fails. -/
def writeFailOracle : FsOracle where
  createFails := fun _ => false
  writeFails := fun _ => true
  renameFails := fun _ => false

/-- C4 as stated is false on the code: on a ".gz" destination the encoded
bytes only reach the temporary file when the deferred gzip w.Close()
flushes its buffer, and the source discards that error.  With the flush
failing, save returns nil, saveAndRename renames the partially written
temporary file onto the destination and returns nil — a failure before
the rename step after which no error is returned and the destination's
previous (complete) content is replaced by an incomplete write. -/
theorem save_and_rename_gz_counterexample :
    writeFailOracle.writeFails (tmpName "db.json.gz" 0) = true
    ∧ (SaveAndRename writeFailOracle (listMapCodec Nat) (idGz (List (String × Nat)))
        [("db.json.gz", FileData.fullData [("old", 1)])] dirtyStore "db.json.gz" 0).1
        = none
    ∧ lookupA "db.json.gz" (SaveAndRename writeFailOracle (listMapCodec Nat)
        (idGz (List (String × Nat)))
        [("db.json.gz", FileData.fullData [("old", 1)])] dirtyStore "db.json.gz" 0).2
        = some FileData.partialData := by
  decide

/-- C4 amended: on a destination without the ".gz" suffix, when
SaveAndRename fails before the rename step the temporary file is removed,
the error is returned, and the destination is unchanged — and the
destination is only ever replaced, via the rename, by a completely written
temporary file.  A create failure is reported the same way on a ".gz"
destination; but a failure to write the gzip-buffered bytes happens inside
the deferred w.Close() whose error the source discards, so SaveAndRename
then returns nil and renames a partially written temporary file onto the
destination. -/
theorem save_and_rename_amended {B F : Type} (orc : FsOracle) (mc : MapCodec B F)
    (gz : Gz F) (fs : FileSys F) (ks : JSONStore B) (filename : String) (now : Nat) :
    ((orc.createFails (tmpName filename now) = true
        ∨ (hasSuffix ".gz" filename = false
           ∧ orc.writeFails (tmpName filename now) = true)) →
      (SaveAndRename orc mc gz fs ks filename now).1 = some GoError.ioError
      ∧ lookupA filename (SaveAndRename orc mc gz fs ks filename now).2
          = lookupA filename fs
      ∧ lookupA (tmpName filename now) (SaveAndRename orc mc gz fs ks filename now).2
          = none)
    ∧ (hasSuffix ".gz" filename = false →
       (lookupA filename (SaveAndRename orc mc gz fs ks filename now).2
          = lookupA filename fs
        ∨ lookupA filename (SaveAndRename orc mc gz fs ks filename now).2
          = some (FileData.fullData
              (fileContent mc gz (tmpName filename now) ks true))))
    ∧ ((hasSuffix ".gz" filename = true
        ∧ orc.createFails (tmpName filename now) = false
        ∧ orc.writeFails (tmpName filename now) = true
        ∧ orc.renameFails (tmpName filename now) = false) →
      (SaveAndRename orc mc gz fs ks filename now).1 = none
      ∧ lookupA filename (SaveAndRename orc mc gz fs ks filename now).2
          = some FileData.partialData) := by
  have hne : tmpName filename now ≠ filename := tmpName_ne filename now
  have hsfx : hasSuffix ".gz" (tmpName filename now) = hasSuffix ".gz" filename :=
    hasSuffix_gz_tmpName filename now
  refine ⟨?_, ?_, ?_⟩
  · intro h
    cases h with
    | inl hcf =>
      refine ⟨?_, ?_, ?_⟩ <;>
        simp [SaveAndRename, saveAndRename, save, createFile, hcf, removeFile,
          lookupA_eraseA_self, lookupA_eraseA_other _ _ _ hne]
    | inr hpw =>
      obtain ⟨hplain, hw⟩ := hpw
      have hsp : hasSuffix ".gz" (tmpName filename now) = false := by
        rw [hsfx]
        exact hplain
      by_cases hcf : orc.createFails (tmpName filename now) = true
      · refine ⟨?_, ?_, ?_⟩ <;>
          simp [SaveAndRename, saveAndRename, save, createFile, hcf, removeFile,
            lookupA_eraseA_self, lookupA_eraseA_other _ _ _ hne]
      · rw [Bool.not_eq_true] at hcf
        refine ⟨?_, ?_, ?_⟩ <;>
          simp [SaveAndRename, saveAndRename, save, createFile, hcf, hsp, hw,
            removeFile, lookupA_eraseA_self, lookupA_eraseA_other _ _ _ hne,
            lookupA_setA_other _ _ _ _ hne]
  · intro hplain
    have hsp : hasSuffix ".gz" (tmpName filename now) = false := by
      rw [hsfx]
      exact hplain
    by_cases hcf : orc.createFails (tmpName filename now) = true
    · left
      simp [SaveAndRename, saveAndRename, save, createFile, hcf, removeFile,
        lookupA_eraseA_other _ _ _ hne]
    · rw [Bool.not_eq_true] at hcf
      by_cases hw : orc.writeFails (tmpName filename now) = true
      · left
        simp [SaveAndRename, saveAndRename, save, createFile, hcf, hsp, hw,
          removeFile, lookupA_eraseA_other _ _ _ hne,
          lookupA_setA_other _ _ _ _ hne]
      · rw [Bool.not_eq_true] at hw
        by_cases hr : orc.renameFails (tmpName filename now) = true
        · left
          simp [SaveAndRename, saveAndRename, save, createFile, hcf, hsp, hw, hr,
            renameFile, removeFile, lookupA_setA_self,
            lookupA_eraseA_other _ _ _ hne, lookupA_setA_other _ _ _ _ hne]
        · right
          rw [Bool.not_eq_true] at hr
          simp [SaveAndRename, saveAndRename, save, createFile, hcf, hsp, hw, hr,
            renameFile, removeFile, lookupA_setA_self,
            lookupA_eraseA_other _ _ _ hne, lookupA_setA_other _ _ _ _ hne]
  · intro h
    obtain ⟨hgz, hcf, hw, hr⟩ := h
    have hsg : hasSuffix ".gz" (tmpName filename now) = true := by
      rw [hsfx]
      exact hgz
    constructor <;>
      simp [SaveAndRename, saveAndRename, save, createFile, hcf, hsg, hw, hr,
        renameFile, removeFile, lookupA_setA_self,
        lookupA_eraseA_other _ _ _ hne, lookupA_setA_other _ _ _ _ hne]

theorem save_and_rename_amended_witness :
    (SaveAndRename writeFailOracle (listMapCodec Nat) (idGz (List (String × Nat)))
        [] dirtyStore "db.json" 0).1 = some GoError.ioError
    ∧ lookupA "db.json" (SaveAndRename writeFailOracle (listMapCodec Nat)
        (idGz (List (String × Nat))) [] dirtyStore "db.json" 0).2
        = lookupA "db.json" ([] : FileSys (List (String × Nat)))
    ∧ lookupA (tmpName "db.json" 0) (SaveAndRename writeFailOracle (listMapCodec Nat)
        (idGz (List (String × Nat))) [] dirtyStore "db.json" 0).2 = none :=
  (save_and_rename_amended writeFailOracle (listMapCodec Nat)
    (idGz (List (String × Nat))) [] dirtyStore "db.json" 0).1
    (Or.inr ⟨by decide, rfl⟩)

theorem saveToWriter_snapshot {B F : Type} (mc : MapCodec B F) (s : JSONStore B) :
    s.saveToWriter mc true = mc.encodeMap s.dataD := by
  simp [JSONStore.saveToWriter, JSONStore.snapshot, JSONStore.dataD]

/-- C5: Save to a path followed by Open of the same path succeeds and
yields a store with an identical key set whose every key holds the payload
originally stored (hence decodes to the original value), whether or not the
path carries the ".gz" suffix. -/
theorem save_open_roundtrip {B F : Type} (orc : FsOracle) (mc : MapCodec B F)
    (gz : Gz F) (fs : FileSys F) (s : JSONStore B) (path : String)
    (hc : orc.createFails path = false) (hw : orc.writeFails path = false) :
    (Save orc mc gz fs s path).1 = none
    ∧ ∃ s' : JSONStore B, Open mc gz (Save orc mc gz fs s path).2 path = Except.ok s'
        ∧ (∀ k, k ∈ s'.Keys ↔ k ∈ s.Keys)
        ∧ (∀ k, lookupA k s'.dataD = lookupA k s.dataD) := by
  obtain ⟨m', hm', hlk⟩ := mc.decode_encode s.dataD
  refine ⟨?_, ⟨{ data := some m', diffCount := 0, setCount := 0, savedCount := 0,
                 savePending := false }, ?_, ?_, ?_⟩⟩
  · by_cases hg : hasSuffix ".gz" path
    · simp [Save, save, createFile, hc, hw, hg]
    · simp [Save, save, createFile, hc, hw, hg]
  · by_cases hg : hasSuffix ".gz" path
    · simp [Save, save, createFile, hc, hw, Open, lookupA_setA_self, hg,
        gz.decompress_compress, fileContent, saveToWriter_snapshot, hm']
    · simp [Save, save, createFile, hc, hw, Open, lookupA_setA_self, hg,
        fileContent, saveToWriter_snapshot, hm']
  · intro k
    rw [JSONStore.Keys, JSONStore.Keys, ← lookupA_isSome_iff_mem,
      ← lookupA_isSome_iff_mem]
    have hm : ({ data := some m', diffCount := 0, setCount := 0, savedCount := 0,
                 savePending := false } : JSONStore B).dataD = m' := rfl
    rw [hm, hlk k]
  · intro k
    exact hlk k

theorem save_open_roundtrip_witness :
    ((Save okOracle (listMapCodec Nat) (idGz (List (String × Nat)))
        [] dirtyStore "db.json.gz").1 = none
     ∧ ∃ s' : JSONStore Nat, Open (listMapCodec Nat) (idGz (List (String × Nat)))
         (Save okOracle (listMapCodec Nat) (idGz (List (String × Nat)))
           [] dirtyStore "db.json.gz").2 "db.json.gz" = Except.ok s'
         ∧ (∀ k, k ∈ s'.Keys ↔ k ∈ dirtyStore.Keys)
         ∧ (∀ k, lookupA k s'.dataD = lookupA k dirtyStore.dataD))
    ∧ ((Save okOracle (listMapCodec Nat) (idGz (List (String × Nat)))
        [] dirtyStore "db.json").1 = none
     ∧ ∃ s' : JSONStore Nat, Open (listMapCodec Nat) (idGz (List (String × Nat)))
         (Save okOracle (listMapCodec Nat) (idGz (List (String × Nat)))
           [] dirtyStore "db.json").2 "db.json" = Except.ok s'
         ∧ (∀ k, k ∈ s'.Keys ↔ k ∈ dirtyStore.Keys)
         ∧ (∀ k, lookupA k s'.dataD = lookupA k dirtyStore.dataD)) :=
  ⟨save_open_roundtrip okOracle (listMapCodec Nat) (idGz (List (String × Nat)))
     [] dirtyStore "db.json.gz" rfl rfl,
   save_open_roundtrip okOracle (listMapCodec Nat) (idGz (List (String × Nat)))
     [] dirtyStore "db.json" rfl rfl⟩

/-!
### Pointer-level model for the snapshot frame property

The Go snapshot copies the map but shares the *json.RawMessage pointers
with the live store.  To state that a snapshot's payload bytes are
untouched by later mutations, this refinement of the same source keeps the
pointer indirection explicit: payloads live in a heap addressed by
allocation order, the map sends keys to addresses, and Set allocates a
fresh cell for the freshly marshalled bytes — it never writes through an
existing pointer.
-/

/-- The heap of payload allocations: address to bytes, and the next fresh
address. -/
structure HeapSt (B : Type) where
  mem : List (Nat × B)
  next : Nat
deriving DecidableEq

/-- Heap lookup by address. -/
def lookupH {B : Type} (a : Nat) : List (Nat × B) → Option B
  | [] => none
  | (a', b) :: rest => if a' = a then some b else lookupH a rest

/-- The JSONStore struct at pointer level: the map holds heap addresses of
the payloads. -/
structure JSONStoreH where
  data : Option (List (String × Nat))
  diffCount : Int
  setCount : Int
  savedCount : Int
  savePending : Bool
deriving DecidableEq

/-- The pointer-level map as reads see it (nil map reads as empty). -/
def JSONStoreH.dataD (s : JSONStoreH) : List (String × Nat) :=
  s.data.getD []

/-- Set at pointer level: marshal, allocate a fresh cell for the new
bytes (Go: b is a fresh slice returned by json.Marshal and &b a fresh
pointer), and point the key at it.  No existing cell is written. -/
def JSONStoreH.Set {V B : Type} (c : Codec V B) (H : HeapSt B) (s : JSONStoreH)
    (key : String) (value : V) : Option GoError × HeapSt B × JSONStoreH :=
  match c.encode value with
  | none => (some GoError.encodeError, H, s)
  | some b =>
    let addr := H.next
    let H2 : HeapSt B := { mem := H.mem ++ [(addr, b)], next := H.next + 1 }
    let newSetCount := s.setCount + 1
    let pend := s.savePending ||
      (decide (s.diffCount ≠ 0) && decide (newSetCount - s.savedCount ≥ s.diffCount))
    (none, H2, { data := some (setA key addr s.dataD), diffCount := s.diffCount,
                 setCount := newSetCount, savedCount := s.savedCount,
                 savePending := pend })

/-- Delete at pointer level: drops the map entry, touches no heap cell. -/
def JSONStoreH.Delete (s : JSONStoreH) (key : String) : JSONStoreH :=
  { s with data := s.data.map (eraseA key) }

/-- snapshot at pointer level: the fresh map shares the payload addresses
of the source, exactly as the Go copy loop shares the RawMessage
pointers. -/
def JSONStoreH.snapshot (s : JSONStoreH) (skipIfSaved : Bool) : Option JSONStoreH :=
  if skipIfSaved = true ∧ s.setCount = s.savedCount then none
  else some { data := some s.dataD, diffCount := 0, setCount := s.setCount,
              savedCount := 0, savePending := false }

/-- What a store denotes through the heap: each of its keys, in map order,
with the payload bytes its address points to. -/
def hView {B : Type} (H : HeapSt B) (s : JSONStoreH) : List (String × Option B) :=
  s.dataD.map (fun p => (p.1, lookupH p.2 H.mem))

/-- One live-store mutation at pointer level: a Set call (successful or
failed) or a Delete. -/
inductive HStep {V B : Type} (c : Codec V B) :
    HeapSt B × JSONStoreH → HeapSt B × JSONStoreH → Prop where
  | set (H : HeapSt B) (s : JSONStoreH) (k : String) (v : V) :
      HStep c (H, s) (JSONStoreH.Set c H s k v).2
  | del (H : HeapSt B) (s : JSONStoreH) (k : String) :
      HStep c (H, s) (H, s.Delete k)

theorem lookupH_append_fresh {B : Type} (a n : Nat) (b : B) (mem : List (Nat × B))
    (ha : a ≠ n) : lookupH a (mem ++ [(n, b)]) = lookupH a mem := by
  induction mem with
  | nil => simp [lookupH, Ne.symm ha]
  | cons p rest ih =>
    by_cases h : p.1 = a
    · simp [lookupH, h]
    · simp [lookupH, h, ih]

theorem hstep_heap_mono {V B : Type} (c : Codec V B) {p q : HeapSt B × JSONStoreH}
    (h : HStep c p q) :
    p.1.next ≤ q.1.next
    ∧ ∀ a, a < p.1.next → lookupH a q.1.mem = lookupH a p.1.mem := by
  cases h with
  | set H s k v =>
    cases hc : c.encode v with
    | none => simp [JSONStoreH.Set, hc]
    | some b =>
      simp only [JSONStoreH.Set, hc]
      refine ⟨by simp, ?_⟩
      intro a ha
      exact lookupH_append_fresh a H.next b H.mem (by omega)
  | del H s k =>
    exact ⟨le_refl _, fun a _ => rfl⟩

theorem hreach_heap_mono {V B : Type} (c : Codec V B) {p q : HeapSt B × JSONStoreH}
    (h : Relation.ReflTransGen (HStep c) p q) :
    p.1.next ≤ q.1.next
    ∧ ∀ a, a < p.1.next → lookupH a q.1.mem = lookupH a p.1.mem := by
  induction h with
  | refl => exact ⟨le_refl _, fun _ _ => rfl⟩
  | tail hr hstep ih =>
    obtain ⟨hn, hl⟩ := ih
    obtain ⟨hn2, hl2⟩ := hstep_heap_mono c hstep
    exact ⟨le_trans hn hn2,
           fun a ha => (hl2 a (lt_of_lt_of_le ha hn)).trans (hl a ha)⟩

/-- C9: a snapshot is disjoint from the live store's backing storage: from
any state whose store addresses are all allocated (below the heap's fresh
mark), after any later sequence of Set and Delete operations on the live
store, the snapshot denotes exactly the keys and payload bytes it denoted
when taken — Set allocates a fresh cell for each new payload and Delete
only drops a map entry, so no cell a snapshot points into is ever written
again. -/
theorem snapshot_frame {V B : Type} (c : Codec V B) (H H2 : HeapSt B)
    (s s2 snap : JSONStoreH) (skip : Bool)
    (hsnap : s.snapshot skip = some snap)
    (hwf : ∀ q, q ∈ s.dataD → q.2 < H.next)
    (hreach : Relation.ReflTransGen (HStep c) (H, s) (H2, s2)) :
    hView H2 snap = hView H snap := by
  obtain ⟨hmono, hstable⟩ := hreach_heap_mono c hreach
  have hdata : snap.dataD = s.dataD := by
    unfold JSONStoreH.snapshot at hsnap
    by_cases h : skip = true ∧ s.setCount = s.savedCount
    · simp [h] at hsnap
    · simp only [h, if_false, Option.some_inj] at hsnap
      rw [← hsnap]
      rfl
  unfold hView
  rw [hdata]
  apply List.map_congr_left
  intro q hq
  have hlt := hwf q hq
  simp only at hstable
  rw [hstable q.2 hlt]

/-- A concrete one-cell heap. -/
def heap0 : HeapSt Nat := { mem := [(0, 7)], next := 1 }

/-- A concrete pointer-level store whose key "a" points at cell 0. -/
def hstore0 : JSONStoreH :=
  { data := some [("a", 0)], diffCount := 0, setCount := 1, savedCount := 0,
    savePending := false }

/-- The snapshot that hstore0.snapshot true produces. -/
def hsnap0 : JSONStoreH :=
  { data := some [("a", 0)], diffCount := 0, setCount := 1, savedCount := 0,
    savePending := false }

theorem snapshot_frame_witness :
    hView (JSONStoreH.Set natCodec heap0 hstore0 "b" 5).2.1 hsnap0
      = hView heap0 hsnap0 :=
  snapshot_frame natCodec heap0 (JSONStoreH.Set natCodec heap0 hstore0 "b" 5).2.1
    hstore0 (JSONStoreH.Set natCodec heap0 hstore0 "b" 5).2.2 hsnap0 true
    (by decide) (by decide)
    (Relation.ReflTransGen.single (HStep.set heap0 hstore0 "b" 5))
